import Mathlib

/-!
Verification of the agent/order/task execution engine of `obs-control-panel`
(`src/agent.ts`, data model in `src/types.ts`).

The TypeScript engine is embedded shallowly:

* `Date` values become a `Nat` clock that ticks at each `new Date()` call.
* A task's opaque asynchronous `action: () => Promise<void>` is modelled by
  its outcome for the single invocation the engine performs:
  `none` = the promise resolves, `some msg` = it rejects and
  `error instanceof Error ? error.message : String(error)` yields `msg`.
* Event handlers (`(data: any) => void`) are modelled as pure observers that
  either return normally (`none`) or throw (`some msg`).  The code's
  handlers never mutate engine state (the source's subscribers only re-read
  public state), so a pure function captures them.
* Thrown JavaScript `Error` values are modelled by the inductive `Exc`,
  one constructor per construction site in `agent.ts`, each carrying the
  message the site puts into `new Error(...)` (or the raw thrown message
  for handler faults).
* Mutation is replaced by explicit state threading.  `Ctx` carries the
  clock and the list of `emit` invocations (the trace); `ExecResult`
  carries the post-state of the manager, the final state of the (aliased)
  `order` argument, the trace, and the outcome (`none` = returned,
  `some e` = threw `e`).
* In the source, `agent.currentOrder` and the event payloads alias the
  live `order`/`agent` objects.  The embedding stores snapshots; the only
  alias-visible divergence is inside payloads of intermediate events,
  which no theorem below inspects.
* `crypto.randomUUID()` results are passed in as explicit `id` arguments.
-/

namespace ObsControl

/-- Status values of `TaskStatus` from `types.ts`. -/
inductive TaskStatus where
  | pending
  | running
  | completed
  | failed
deriving DecidableEq, Repr

/-- Status values of `Order.status` from `types.ts`. -/
inductive OrderStatus where
  | pending
  | in_progress
  | completed
  | failed
deriving DecidableEq, Repr

/-- Status values of `Agent.status` from `types.ts`. -/
inductive AgentStatus where
  | idle
  | busy
  | error
deriving DecidableEq, Repr

/-- Record `Task` from `types.ts`.  Field `action` is the outcome of the single
invocation the engine performs (`none` = resolves, `some msg` = rejects
with message `msg`); timestamps are clock readings. -/
structure Task where
  id : String
  name : String
  description : String
  status : TaskStatus
  action : Option String
  result : Option String := none
  error : Option String := none
  startTime : Option Nat := none
  endTime : Option Nat := none
deriving DecidableEq, Repr

/-- Record `Order` from `types.ts`. -/
structure Order where
  id : String
  name : String
  description : String
  tasks : List Task
  createdAt : Nat
  status : OrderStatus
deriving DecidableEq, Repr

/-- Record `Agent` from `types.ts`. -/
structure Agent where
  id : String
  name : String
  status : AgentStatus
  currentOrder : Option Order := none
  orderHistory : List Order
deriving DecidableEq, Repr

/-- Thrown values, one constructor per throw site of `agent.ts`:
`agentNotFound` for line 70, `agentBusy` for line 74, `taskFailed` for the
`new Error` of line 86 (carrying its full message), `handlerFault` for a
value thrown by an event handler and propagating out of `emit`. -/
inductive Exc where
  | agentNotFound (agentId : String)
  | agentBusy (agentName : String)
  | taskFailed (msg : String)
  | handlerFault (msg : String)
deriving DecidableEq, Repr

/-- The message of the underlying JavaScript `Error`. -/
def Exc.message : Exc → String
  | .agentNotFound agentId => "Agent " ++ agentId ++ " not found"
  | .agentBusy agentName => "Agent " ++ agentName ++ " is already busy"
  | .taskFailed m => m
  | .handlerFault m => m

/-- Payloads passed to `emit` in `agent.ts` (snapshots of the live objects
at the emission point). -/
inductive EventPayload where
  | agentCreated (agent : Agent)
  | orderStarted (agent : Agent) (order : Order)
  | taskStarted (agent : Agent) (task : Task)
  | taskCompleted (agent : Agent) (task : Task)
  | orderCompleted (agent : Agent) (order : Order)
  | orderFailed (agent : Agent) (order : Order) (error : Exc)
deriving DecidableEq, Repr

/-- A subscribed handler: returns `none` or throws `some msg`. -/
abbrev Handler : Type := EventPayload → Option String

/-- The `eventListeners: Map<string, Array<(data) => void>>` map as a keyed list. -/
abbrev Listeners : Type := List (String × List Handler)

/-- One recorded `emit` invocation: event name and payload. -/
abbrev Event : Type := String × EventPayload

/-- Threaded effect state: the `Date` clock and the emission trace. -/
structure Ctx where
  clock : Nat
  trace : List Event

/-- The `AgentManager` fields: the agents map (insertion-ordered, keyed by
`Agent.id`) and the event-listener map. -/
structure AgentManager where
  agents : List Agent
  eventListeners : Listeners

/-- Lookup `this.agents.get(agentId)`. -/
def findAgent (m : AgentManager) (agentId : String) : Option Agent :=
  m.agents.find? (fun a => a.id == agentId)

/-- Writing the mutated agent object back into the map (the source mutates
the object held by the map in place). -/
def setAgent (agents : List Agent) (a : Agent) : List Agent :=
  agents.map (fun x => if x.id = a.id then a else x)

/-- The loop `listeners.forEach((callback) => callback(data))`: handlers run in
registration order; a throwing handler aborts the iteration and its fault
propagates out of `forEach` (there is no try/catch in `emit`). -/
def runHandlers (hs : List Handler) (p : EventPayload) : Option String :=
  match hs with
  | [] => none
  | h :: rest =>
    match h p with
    | none => runHandlers rest p
    | some e => some e

/-- Body of `AgentManager.emit` (lines 136-141): look up the listeners for
the event name and invoke them; no listeners means no effect. -/
def dispatch (ls : Listeners) (event : String) (p : EventPayload) :
    Option String :=
  match ls.lookup event with
  | none => none
  | some hs => runHandlers hs p

/-- Wrapper for `emit` with the effect state threaded: the invocation is recorded on
the trace (whether or not listeners exist), and the result is a possible
handler fault. -/
def emitR (ls : Listeners) (c : Ctx) (event : String) (p : EventPayload) :
    Ctx × Option String :=
  ({ c with trace := c.trace ++ [(event, p)] }, dispatch ls event p)

/-- Method `AgentManager.on` (lines 129-134): create the entry if absent, then
push the callback (`on` is a Lean keyword, hence the name). -/
def onEvent (ls : Listeners) (event : String) (cb : Handler) : Listeners :=
  match ls.lookup event with
  | none => ls ++ [(event, [cb])]
  | some hs => ls.map (fun kv => if kv.1 = event then (event, hs ++ [cb]) else kv)

/-- Method `AgentManager.executeTask` (lines 108-124).  Returns the task state at
the exit point, the new effect state, and `some msg` when a handler fault
escaped.  The action's own rejection is caught inside (lines 117-119) and
never escapes. -/
def executeTask (ls : Listeners) (c : Ctx) (agent : Agent) (task : Task) :
    Task × Ctx × Option String :=
  let task1 := { task with status := .running, startTime := some c.clock }
  let c1 : Ctx := { c with clock := c.clock + 1 }
  let (c2, r1) := emitR ls c1 "taskStarted" (.taskStarted agent task1)
  match r1 with
  | some m => (task1, c2, some m)
  | none =>
    let task2 :=
      match task1.action with
      | none => { task1 with status := .completed, result := some "Success" }
      | some msg => { task1 with status := .failed, error := some msg }
    let task3 := { task2 with endTime := some c2.clock }
    let c3 : Ctx := { c2 with clock := c2.clock + 1 }
    let (c4, r2) := emitR ls c3 "taskCompleted" (.taskCompleted agent task3)
    (task3, c4, r2)

/-- The message of the `new Error` thrown at line 86
(template literal: an unset `task.error` prints as "undefined"). -/
def taskFailMsg (t : Task) : String :=
  "Task " ++ t.name ++ " failed: " ++
    (match t.error with
     | some m => m
     | none => "undefined")

/-- The task loop of `executeOrder` (lines 83-88): run the tasks in order;
stop at the first handler fault or at the first task whose status is
`failed` after its execution (throwing the line-86 `Error`).  The
remaining tasks are returned untouched. -/
def runTasks (ls : Listeners) (agent : Agent) :
    Ctx → List Task → List Task × Ctx × Option Exc
  | c, [] => ([], c, none)
  | c, t :: rest =>
    match executeTask ls c agent t with
    | (t', c1, some m) => (t' :: rest, c1, some (.handlerFault m))
    | (t', c1, none) =>
      if t'.status = .failed then
        (t' :: rest, c1, some (.taskFailed (taskFailMsg t')))
      else
        match runTasks ls agent c1 rest with
        | (rest', c2, r2) => (t' :: rest', c2, r2)

/-- The `finally` block of `executeOrder` (lines 96-102): push the order
onto the history, clear `currentOrder`, and reset a non-`error` status to
`idle`. -/
def finallyStep (agent : Agent) (ord : Order) : Agent :=
  let a1 := { agent with
    orderHistory := agent.orderHistory ++ [ord], currentOrder := none }
  if a1.status = .error then a1 else { a1 with status := .idle }

/-- Result of one `executeOrder` call: post-state of the manager, final
state of the caller's `order` object, emission trace, final clock, and
outcome (`none` = returned, `some e` = threw `e`). -/
structure ExecResult where
  mgr : AgentManager
  order : Order
  trace : List Event
  clock : Nat
  outcome : Option Exc

/-- The `catch` block (lines 91-95) followed by the `finally` block:
mark the order failed and the agent `error`, emit `orderFailed`, run the
cleanup, and propagate — the original failure, or the `orderFailed`
handler's fault if that emission itself threw (in which case the
`throw error` of line 95 is never reached). -/
def catchAndFinally (m : AgentManager) (c : Ctx) (agent1 : Agent)
    (ord : Order) (e : Exc) : ExecResult :=
  let order3 := { ord with status := .failed }
  let agentC := { agent1 with status := .error }
  let (c4, r3) := emitR m.eventListeners c "orderFailed"
    (.orderFailed agentC order3 e)
  let thrown :=
    match r3 with
    | some m2 => Exc.handlerFault m2
    | none => e
  let agentF := finallyStep agentC order3
  ⟨{ m with agents := setAgent m.agents agentF }, order3, c4.trace,
    c4.clock, some thrown⟩

/-- The try/catch/finally of `executeOrder` (lines 82-102), entered
after the `orderStarted` emission succeeded. -/
def executeOrderBody (m : AgentManager) (c : Ctx) (agent1 : Agent)
    (order1 : Order) : ExecResult :=
  match runTasks m.eventListeners agent1 c order1.tasks with
  | (tasks', c2, rTry) =>
    let orderRun := { order1 with tasks := tasks' }
    match rTry with
    | none =>
      let order2 := { orderRun with status := .completed }
      let (c3, r2) := emitR m.eventListeners c2 "orderCompleted"
        (.orderCompleted agent1 order2)
      match r2 with
      | none =>
        let agent2 := finallyStep agent1 order2
        ⟨{ m with agents := setAgent m.agents agent2 }, order2, c3.trace,
          c3.clock, none⟩
      | some msg => catchAndFinally m c3 agent1 order2 (.handlerFault msg)
    | some e => catchAndFinally m c2 agent1 orderRun e

/-- Lines 77-102 of `executeOrder`, once past the precondition checks:
mark the agent busy with the order attached, emit `orderStarted` (this
emission precedes the `try`, so a fault here escapes with no cleanup),
then run the guarded body. -/
def executeOrderRun (m : AgentManager) (ck : Nat) (agent : Agent)
    (order : Order) : ExecResult :=
  let order1 := { order with status := .in_progress }
  let agent1 := { agent with currentOrder := some order1, status := .busy }
  let (c1, r1) := emitR m.eventListeners ⟨ck, []⟩ "orderStarted"
    (.orderStarted agent1 order1)
  match r1 with
  | some msg =>
    ⟨{ m with agents := setAgent m.agents agent1 }, order1, c1.trace,
      c1.clock, some (.handlerFault msg)⟩
  | none => executeOrderBody m c1 agent1 order1

/-- Method `AgentManager.executeOrder` (lines 67-103). -/
def executeOrder (m : AgentManager) (ck : Nat) (agentId : String)
    (order : Order) : ExecResult :=
  match findAgent m agentId with
  | none => ⟨m, order, [], ck, some (.agentNotFound agentId)⟩
  | some agent =>
    if agent.status = .busy then
      ⟨m, order, [], ck, some (.agentBusy agent.name)⟩
    else
      executeOrderRun m ck agent order

/-- Method `AgentManager.createAgent` (lines 13-24); the fresh
`crypto.randomUUID()` is passed in as `id`. -/
def createAgent (m : AgentManager) (c : Ctx) (id name : String) :
    Agent × AgentManager × Ctx × Option String :=
  let agent : Agent :=
    { id := id, name := name, status := .idle, orderHistory := [] }
  let m1 := { m with agents := m.agents ++ [agent] }
  let (c1, r) := emitR m.eventListeners c "agentCreated" (.agentCreated agent)
  (agent, m1, c1, r)

/-- A task spec handed to `createOrder`: name, description, action. -/
structure TaskSpec where
  name : String
  description : String
  action : Option String

/-- Method `AgentManager.createOrder` (lines 43-62); the fresh UUIDs are passed
in as `orderId` and `taskIds`, `new Date()` as `now`. -/
def createOrder (name description : String) (specs : List TaskSpec)
    (orderId : String) (taskIds : List String) (now : Nat) : Order :=
  { id := orderId, name := name, description := description,
    tasks := (specs.zip taskIds).map (fun st =>
      { id := st.2, name := st.1.name, description := st.1.description,
        status := .pending, action := st.1.action }),
    createdAt := now, status := .pending }

/-- Return type of `getStats`. -/
structure Stats where
  totalOrders : Nat
  completedOrders : Nat
  failedOrders : Nat
  totalTasks : Nat
deriving DecidableEq, Repr

/-- Method `AgentManager.getStats` (lines 146-169).  The source method only reads
state (no assignment occurs in its body); the embedding is accordingly a
pure function of the manager. -/
def getStats (m : AgentManager) (agentId : String) : Except Exc Stats :=
  match findAgent m agentId with
  | none => .error (.agentNotFound agentId)
  | some agent =>
    .ok
      { totalOrders := agent.orderHistory.length,
        completedOrders :=
          (agent.orderHistory.filter (fun o => o.status == .completed)).length,
        failedOrders :=
          (agent.orderHistory.filter (fun o => o.status == .failed)).length,
        totalTasks :=
          agent.orderHistory.foldl (fun sum o => sum + o.tasks.length) 0 }

/-- The per-agent invariant of the spec: `busy` iff an order is attached. -/
def agentInv (a : Agent) : Prop :=
  a.status = .busy ↔ a.currentOrder.isSome

instance (a : Agent) : Decidable (agentInv a) := by
  unfold agentInv; infer_instance

/-- Projection of a recorded event to (name, id of the task it concerns):
enough to state the event-sequence properties. -/
def eventTag : Event → String × Option String
  | (n, .taskStarted _ t) => (n, some t.id)
  | (n, .taskCompleted _ t) => (n, some t.id)
  | (n, _) => (n, none)

/-- No registered handler ever throws. -/
def benign (ls : Listeners) : Prop :=
  ∀ event p, dispatch ls event p = none

end ObsControl
namespace ObsControl

/-! ### Derived task states

Abbreviations for the task values `executeTask` produces, used to state
its equations. -/

/-- Task state after lines 109-110: marked running, start stamped. -/
def taskRunning (t : Task) (ck : Nat) : Task :=
  { t with status := .running, startTime := some ck }

/-- Task state after a successful action plus the `finally` stamp. -/
def taskDone (t : Task) (ck : Nat) : Task :=
  { t with status := .completed, result := some "Success", startTime := some ck, endTime := some (ck + 1) }

/-- Task state after a rejected action plus the `finally` stamp. -/
def taskFailedSt (t : Task) (msg : String) (ck : Nat) : Task :=
  { t with status := .failed, error := some msg, startTime := some ck, endTime := some (ck + 1) }

/-! ### Helper lemmas about the embedded operations -/

theorem executeTask_success (ls : Listeners) (hb : benign ls) (c : Ctx)
    (ag : Agent) (t : Task) (ha : t.action = none) :
    executeTask ls c ag t =
      (taskDone t c.clock,
       ⟨c.clock + 2,
        c.trace ++ [("taskStarted", .taskStarted ag (taskRunning t c.clock)), ("taskCompleted", .taskCompleted ag (taskDone t c.clock))]⟩,
       none) := by
  have hb' : ∀ event p, dispatch ls event p = none := hb
  unfold executeTask emitR taskDone taskRunning
  simp [hb', ha, List.append_assoc, Nat.add_assoc]

theorem executeTask_fail (ls : Listeners) (hb : benign ls) (c : Ctx)
    (ag : Agent) (t : Task) (msg : String) (ha : t.action = some msg) :
    executeTask ls c ag t =
      (taskFailedSt t msg c.clock,
       ⟨c.clock + 2,
        c.trace ++ [("taskStarted", .taskStarted ag (taskRunning t c.clock)), ("taskCompleted", .taskCompleted ag (taskFailedSt t msg c.clock))]⟩,
       none) := by
  have hb' : ∀ event p, dispatch ls event p = none := hb
  unfold executeTask emitR taskFailedSt taskRunning
  simp [hb', ha, List.append_assoc, Nat.add_assoc]

/-- Trace tags contributed by one fully executed task. -/
def taskTags (t : Task) : List (String × Option String) :=
  [("taskStarted", some t.id), ("taskCompleted", some t.id)]

theorem runTasks_success (ls : Listeners) (hb : benign ls) (ag : Agent) :
    ∀ (ts : List Task) (c : Ctx), (∀ t ∈ ts, t.action = none) →
    ∃ ts' c', runTasks ls ag c ts = (ts', c', none) ∧
      ts'.length = ts.length ∧
      (∀ t' ∈ ts', t'.status = .completed) ∧
      c'.trace.map eventTag = c.trace.map eventTag ++ (ts.map taskTags).flatten := by
  intro ts
  induction ts with
  | nil =>
    intro c _
    exact ⟨[], c, rfl, rfl, by simp, by simp⟩
  | cons t rest ih =>
    intro c h
    have ht : t.action = none := h t (List.mem_cons_self t rest)
    have hrest : ∀ x ∈ rest, x.action = none := fun x hx => h x (List.mem_cons_of_mem t hx)
    obtain ⟨rest', c', heq, hlen, hall, htr⟩ :=
      ih ⟨c.clock + 2,
          c.trace ++ [("taskStarted", .taskStarted ag (taskRunning t c.clock)), ("taskCompleted", .taskCompleted ag (taskDone t c.clock))]⟩
        hrest
    refine ⟨taskDone t c.clock :: rest', c', ?_, ?_, ?_, ?_⟩
    · simp only [runTasks, executeTask_success ls hb c ag t ht]
      rw [heq]
      simp [taskDone]
    · simp [hlen]
    · intro t' ht'
      rcases List.mem_cons.mp ht' with h1 | h2
      · rw [h1]; simp [taskDone]
      · exact hall t' h2
    · simp only [htr]
      simp [taskTags, taskRunning, taskDone, eventTag, List.append_assoc]

theorem runTasks_fail (ls : Listeners) (hb : benign ls) (ag : Agent) :
    ∀ (ts₁ : List Task) (c : Ctx) (tF : Task) (rest : List Task) (msg : String),
    (∀ t ∈ ts₁, t.action = none) → tF.action = some msg →
    ∃ ts₁' c', runTasks ls ag c (ts₁ ++ tF :: rest) =
        (ts₁' ++ taskFailedSt tF msg (c'.clock - 2) :: rest, c',
         some (.taskFailed ("Task " ++ tF.name ++ " failed: " ++ msg))) ∧
      ts₁'.length = ts₁.length ∧
      (∀ t' ∈ ts₁', t'.status = .completed) ∧
      c'.trace.map eventTag = c.trace.map eventTag ++ (ts₁.map taskTags).flatten ++ taskTags tF := by
  intro ts₁
  induction ts₁ with
  | nil =>
    intro c tF rest msg _ hF
    refine ⟨[], ⟨c.clock + 2,
        c.trace ++ [("taskStarted", .taskStarted ag (taskRunning tF c.clock)), ("taskCompleted", .taskCompleted ag (taskFailedSt tF msg c.clock))]⟩,
      ?_, rfl, by simp, ?_⟩
    · simp only [List.nil_append, runTasks, executeTask_fail ls hb c ag tF msg hF]
      simp [taskFailedSt, taskFailMsg]
    · simp [taskTags, taskRunning, taskFailedSt, eventTag]
  | cons t ts ih =>
    intro c tF rest msg h hF
    have ht : t.action = none := h t (List.mem_cons_self t ts)
    have hts : ∀ x ∈ ts, x.action = none := fun x hx => h x (List.mem_cons_of_mem t hx)
    obtain ⟨ts', c', heq, hlen, hall, htr⟩ :=
      ih ⟨c.clock + 2,
          c.trace ++ [("taskStarted", .taskStarted ag (taskRunning t c.clock)), ("taskCompleted", .taskCompleted ag (taskDone t c.clock))]⟩
        tF rest msg hts hF
    refine ⟨taskDone t c.clock :: ts', c', ?_, ?_, ?_, ?_⟩
    · simp only [List.cons_append, runTasks, executeTask_success ls hb c ag t ht,
        List.append_eq]
      rw [heq]
      simp [taskDone]
    · simp [hlen]
    · intro t' ht'
      rcases List.mem_cons.mp ht' with h1 | h2
      · rw [h1]; simp [taskDone]
      · exact hall t' h2
    · simp only [htr]
      simp [taskTags, taskRunning, taskDone, eventTag, List.append_assoc]

theorem runTasks_exc_shape (ls : Listeners) (ag : Agent) :
    ∀ (ts : List Task) (c : Ctx) (ts' : List Task) (c' : Ctx) (e : Exc),
    runTasks ls ag c ts = (ts', c', some e) →
    (∃ s, e = .handlerFault s) ∨ (∃ s, e = .taskFailed s) := by
  intro ts
  induction ts with
  | nil =>
    intro c ts' c' e h
    simp [runTasks] at h
  | cons t rest ih =>
    intro c ts' c' e h
    rw [runTasks] at h
    rcases hex : executeTask ls c ag t with ⟨t1, c1, r1⟩
    rw [hex] at h
    cases r1 with
    | some m =>
      simp at h
      exact Or.inl ⟨m, h.2.2.symm⟩
    | none =>
      by_cases hf : t1.status = .failed
      · simp [hf] at h
        exact Or.inr ⟨taskFailMsg t1, h.2.2.symm⟩
      · simp [hf] at h
        rcases hrt : runTasks ls ag c1 rest with ⟨rest', c2, r2⟩
        rw [hrt] at h
        simp at h
        obtain ⟨h1, h2, h3⟩ := h
        exact ih c1 rest' c2 e (by rw [hrt, h3])

theorem find?_setAgent (agents : List Agent) (agentId : String) (ag aF : Agent)
    (h : agents.find? (fun a => a.id == agentId) = some ag) (hid : aF.id = ag.id) :
    (setAgent agents aF).find? (fun a => a.id == agentId) = some aF := by
  have hagid : ag.id = agentId := by
    have hp := List.find?_some h
    simpa using hp
  induction agents with
  | nil => simp at h
  | cons x xs ih =>
    by_cases hx : x.id = agentId
    · rw [List.find?_cons_of_pos _ (by simpa using hx)] at h
      have hxag : x = ag := by injection h
      have hxa : x.id = aF.id := by rw [hid, ← hxag]
      simp only [setAgent, List.map_cons, if_pos hxa]
      exact List.find?_cons_of_pos _ (by simp [hid, hagid])
    · rw [List.find?_cons_of_neg _ (by simpa using hx)] at h
      have hxa : ¬ x.id = aF.id := by rw [hid, hagid]; exact hx
      simp only [setAgent, List.map_cons, if_neg hxa]
      rw [List.find?_cons_of_neg _ (by simpa using hx)]
      exact ih h

theorem mem_setAgent (agents : List Agent) (a x : Agent)
    (hx : x ∈ setAgent agents a) : x = a ∨ x ∈ agents := by
  unfold setAgent at hx
  rcases List.mem_map.mp hx with ⟨y, hy, hxy⟩
  by_cases h : y.id = a.id
  · left; rw [← hxy, if_pos h]
  · right; rw [← hxy, if_neg h]; exact hy

theorem finallyStep_currentOrder (a : Agent) (o : Order) :
    (finallyStep a o).currentOrder = none := by
  unfold finallyStep
  by_cases h : a.status = .error <;> simp [h]

theorem finallyStep_history (a : Agent) (o : Order) :
    (finallyStep a o).orderHistory = a.orderHistory ++ [o] := by
  unfold finallyStep
  by_cases h : a.status = .error <;> simp [h]

theorem finallyStep_status (a : Agent) (o : Order) :
    (finallyStep a o).status = if a.status = .error then AgentStatus.error else .idle := by
  unfold finallyStep
  by_cases h : a.status = .error <;> simp [h]

theorem finallyStep_id (a : Agent) (o : Order) : (finallyStep a o).id = a.id := by
  unfold finallyStep
  by_cases h : a.status = .error <;> simp [h]

theorem catchAndFinally_def (m : AgentManager) (c : Ctx) (a : Agent) (o : Order) (e : Exc) :
    catchAndFinally m c a o e =
      ⟨{ m with agents :=
                  setAgent m.agents (finallyStep { a with status := .error } { o with status := .failed }) },
       { o with status := .failed },
       c.trace ++ [("orderFailed", .orderFailed { a with status := .error } { o with status := .failed } e)],
       c.clock,
       some (match dispatch m.eventListeners "orderFailed"
               (.orderFailed { a with status := .error } { o with status := .failed } e) with
             | some m2 => Exc.handlerFault m2
             | none => e)⟩ := by
  unfold catchAndFinally emitR
  rfl

theorem executeOrderBody_shape (m : AgentManager) (c : Ctx) (agent1 : Agent)
    (order1 : Order) :
    ∃ aFin, (executeOrderBody m c agent1 order1).mgr.agents = setAgent m.agents aFin ∧
      aFin.id = agent1.id ∧ aFin.currentOrder = none ∧
      (∃ o', aFin.orderHistory = agent1.orderHistory ++ [o']) ∧
      (aFin.status = .idle ∨ aFin.status = .error) := by
  unfold executeOrderBody
  rcases hrt : runTasks m.eventListeners agent1 c order1.tasks with ⟨ts', c2, rTry⟩
  dsimp only
  cases rTry with
  | some e =>
    dsimp only
    rw [catchAndFinally_def]
    refine ⟨finallyStep { agent1 with status := .error } _, rfl, ?_, ?_, ?_, ?_⟩
    · rw [finallyStep_id]
    · exact finallyStep_currentOrder _ _
    · exact ⟨_, finallyStep_history _ _⟩
    · right
      rw [finallyStep_status]
      simp
  | none =>
    dsimp only [emitR]
    split
    · refine ⟨finallyStep agent1 _, rfl, ?_, ?_, ?_, ?_⟩
      · rw [finallyStep_id]
      · exact finallyStep_currentOrder _ _
      · exact ⟨_, finallyStep_history _ _⟩
      · rw [finallyStep_status]
        by_cases h : agent1.status = .error <;> simp [h]
    · rw [catchAndFinally_def]
      refine ⟨finallyStep { agent1 with status := .error } _, rfl, ?_, ?_, ?_, ?_⟩
      · rw [finallyStep_id]
      · exact finallyStep_currentOrder _ _
      · exact ⟨_, finallyStep_history _ _⟩
      · right
        rw [finallyStep_status]
        simp

theorem executeOrderRun_shape (m : AgentManager) (ck : Nat) (ag : Agent) (ord : Order) :
    ∃ aFin, (executeOrderRun m ck ag ord).mgr.agents = setAgent m.agents aFin ∧
      aFin.id = ag.id ∧
      ((aFin.status = .busy ∧ aFin.currentOrder.isSome = true ∧
        aFin.orderHistory = ag.orderHistory ∧
        ∃ e, dispatch m.eventListeners "orderStarted"
               (.orderStarted
                 { ag with currentOrder := some { ord with status := .in_progress }, status := .busy }
                 { ord with status := .in_progress }) = some e) ∨
       (aFin.currentOrder = none ∧
        (∃ o', aFin.orderHistory = ag.orderHistory ++ [o']) ∧
        (aFin.status = .idle ∨ aFin.status = .error))) := by
  unfold executeOrderRun emitR
  dsimp only
  split
  next msg heq =>
    refine ⟨{ ag with currentOrder := some { ord with status := .in_progress }, status := .busy },
      rfl, rfl, Or.inl ⟨rfl, rfl, rfl, msg, heq⟩⟩
  next heq =>
    obtain ⟨aFin, h1, h2, h3, h4, h5⟩ :=
      executeOrderBody_shape m
        ⟨ck, [("orderStarted",
          .orderStarted
            { ag with currentOrder := some { ord with status := .in_progress }, status := .busy }
            { ord with status := .in_progress })]⟩
        { ag with currentOrder := some { ord with status := .in_progress }, status := .busy }
        { ord with status := .in_progress }
    exact ⟨aFin, h1, h2, Or.inr ⟨h3, h4, h5⟩⟩

theorem executeOrder_eq_run (m : AgentManager) (ck : Nat) (agentId : String)
    (ord : Order) (ag : Agent) (hf : findAgent m agentId = some ag)
    (hnb : ¬ ag.status = .busy) :
    executeOrder m ck agentId ord = executeOrderRun m ck ag ord := by
  unfold executeOrder
  rw [hf]
  dsimp only
  rw [if_neg hnb]

/-- The outcomes `executeOrder` can produce once past its precondition
checks: normal return, a propagated handler fault, or the task-failure
`Error`. -/
def runOutcome (o : Option Exc) : Prop :=
  o = none ∨ (∃ s, o = some (.handlerFault s)) ∨ (∃ s, o = some (.taskFailed s))

theorem executeOrderBody_outcome (m : AgentManager) (c : Ctx) (a1 : Agent)
    (o1 : Order) : runOutcome (executeOrderBody m c a1 o1).outcome := by
  unfold executeOrderBody
  rcases hrt : runTasks m.eventListeners a1 c o1.tasks with ⟨ts', c2, rTry⟩
  dsimp only
  cases rTry with
  | some e =>
    dsimp only
    rw [catchAndFinally_def]
    dsimp only
    split
    next m2 hm2 => exact Or.inr (Or.inl ⟨m2, rfl⟩)
    next =>
      rcases runTasks_exc_shape _ _ _ _ _ _ _ hrt with ⟨s, rfl⟩ | ⟨s, rfl⟩
      · exact Or.inr (Or.inl ⟨s, rfl⟩)
      · exact Or.inr (Or.inr ⟨s, rfl⟩)
  | none =>
    dsimp only [emitR]
    split
    · exact Or.inl rfl
    · rw [catchAndFinally_def]
      dsimp only
      split
      next m2 hm2 => exact Or.inr (Or.inl ⟨m2, rfl⟩)
      next => exact Or.inr (Or.inl ⟨_, rfl⟩)

theorem executeOrderRun_outcome (m : AgentManager) (ck : Nat) (ag : Agent)
    (ord : Order) : runOutcome (executeOrderRun m ck ag ord).outcome := by
  unfold executeOrderRun emitR
  dsimp only
  split
  next msg heq => exact Or.inr (Or.inl ⟨msg, rfl⟩)
  next heq => exact executeOrderBody_outcome _ _ _ _

/-! ### Claim theorems -/

/-- C5: for every agent, status is `busy` iff a current order is attached;
if this biconditional holds for every agent of the manager before a call
to `executeOrder`, it holds for every agent after the call returns or
raises, on every outcome (agent not found, agent busy, success, failure,
or a handler fault) and for arbitrary handler behaviour. -/
theorem c5_busy_invariant (m : AgentManager) (ck : Nat) (agentId : String)
    (ord : Order) (h : ∀ a ∈ m.agents, agentInv a) :
    ∀ a ∈ (executeOrder m ck agentId ord).mgr.agents, agentInv a := by
  intro a ha
  rcases hf : findAgent m agentId with _ | ag
  · unfold executeOrder at ha
    rw [hf] at ha
    dsimp only at ha
    exact h a ha
  · by_cases hb : ag.status = .busy
    · unfold executeOrder at ha
      rw [hf] at ha
      dsimp only at ha
      rw [if_pos hb] at ha
      exact h a ha
    · rw [executeOrder_eq_run m ck agentId ord ag hf hb] at ha
      obtain ⟨aFin, hset, hid, hshape⟩ := executeOrderRun_shape m ck ag ord
      rw [hset] at ha
      rcases mem_setAgent _ _ _ ha with rfl | hmem
      · rcases hshape with ⟨hb1, hc1, _⟩ | ⟨hc, _, hs⟩
        · exact ⟨fun _ => hc1, fun _ => hb1⟩
        · constructor
          · intro hbusy
            rcases hs with hs | hs <;> rw [hs] at hbusy <;> exact absurd hbusy (by simp)
          · intro hsome
            rw [hc] at hsome
            simp at hsome
      · exact h a hmem

/-- C4: past the lookup, `executeOrder` raises `AgentNotFound` exactly when
the agent id does not resolve, raises `AgentBusy` exactly when the resolved
agent is busy at call time, and in the busy case returns with the manager,
the passed order, and the trace untouched (no event published). -/
theorem c4_preconditions (m : AgentManager) (ck : Nat) (agentId : String)
    (ord : Order) :
    ((∃ s, (executeOrder m ck agentId ord).outcome = some (.agentNotFound s)) ↔
      findAgent m agentId = none) ∧
    ((∃ s, (executeOrder m ck agentId ord).outcome = some (.agentBusy s)) ↔
      ∃ ag, findAgent m agentId = some ag ∧ ag.status = .busy) ∧
    (∀ ag, findAgent m agentId = some ag → ag.status = .busy →
      executeOrder m ck agentId ord = ⟨m, ord, [], ck, some (.agentBusy ag.name)⟩) := by
  rcases hf : findAgent m agentId with _ | ag
  · have hr : executeOrder m ck agentId ord =
        ⟨m, ord, [], ck, some (.agentNotFound agentId)⟩ := by
      unfold executeOrder
      rw [hf]
    refine ⟨⟨fun _ => rfl, fun _ => ⟨agentId, by rw [hr]⟩⟩, ?_, ?_⟩
    · constructor
      · intro ⟨s, hs⟩
        rw [hr] at hs
        simp at hs
      · intro ⟨ag, hag, _⟩
        exact absurd hag (by simp)
    · intro ag hag
      exact absurd hag (by simp)
  · by_cases hb : ag.status = .busy
    · have hr : executeOrder m ck agentId ord =
          ⟨m, ord, [], ck, some (.agentBusy ag.name)⟩ := by
        unfold executeOrder
        rw [hf]
        dsimp only
        rw [if_pos hb]
      refine ⟨?_, ⟨fun _ => ⟨ag, rfl, hb⟩, fun _ => ⟨ag.name, by rw [hr]⟩⟩, ?_⟩
      · constructor
        · intro ⟨s, hs⟩
          rw [hr] at hs
          simp at hs
        · intro hnone
          exact absurd hnone (by simp)
      · intro ag' hag' _
        have heq : ag = ag' := by injection hag'
        rw [← heq, hr]
    · have hro := executeOrderRun_outcome m ck ag ord
      rw [← executeOrder_eq_run m ck agentId ord ag hf hb] at hro
      have hnotpre : ∀ s, (executeOrder m ck agentId ord).outcome ≠ some (.agentNotFound s) ∧
          (executeOrder m ck agentId ord).outcome ≠ some (.agentBusy s) := by
        intro s
        rcases hro with hn | ⟨s2, hs2⟩ | ⟨s2, hs2⟩ <;>
          constructor <;> intro hcon <;>
          first
          | (rw [hn] at hcon; simp at hcon)
          | (rw [hs2] at hcon; simp at hcon)
      refine ⟨?_, ?_, ?_⟩
      · constructor
        · intro ⟨s, hs⟩
          exact absurd hs (hnotpre s).1
        · intro hnone
          exact absurd hnone (by simp)
      · constructor
        · intro ⟨s, hs⟩
          exact absurd hs (hnotpre s).2
        · intro ⟨ag', hag', hb'⟩
          have heq : ag = ag' := by injection hag'
          rw [← heq] at hb'
          exact absurd hb' hb
      · intro ag' hag' hb'
        have heq : ag = ag' := by injection hag'
        rw [← heq] at hb'
        exact absurd hb' hb

/-! ### Concrete fixtures for counterexamples and witnesses -/

/-- A freshly created idle agent (as `createAgent` produces). -/
def agentA : Agent := { id := "a1", name := "A", status := .idle, orderHistory := [] }

/-- A pending order with no tasks. -/
def emptyOrder : Order :=
  { id := "o1", name := "O", description := "", tasks := [], createdAt := 0, status := .pending }

/-- A manager whose single `orderStarted` handler throws "boom". -/
def throwingMgr : AgentManager :=
  { agents := [agentA], eventListeners := [("orderStarted", [fun _ => some "boom"])] }

/-- A manager with two `orderStarted` handlers, both throwing. -/
def doubleThrowMgr : AgentManager :=
  { agents := [agentA],
    eventListeners := [("orderStarted", [fun _ => some "h1", fun _ => some "h2"])] }

/-- C1 counterexample: a raising handler's fault is NOT isolated.  With
two subscribed `orderStarted` handlers that throw "h1" and "h2", the call
to `executeOrder` itself throws the first handler's fault — it propagates
through `emit` into the engine and to the caller, and the second handler's
fault never surfaces (it is never invoked), refuting the claim that a
raised fault never reaches the caller of `execute_order`. -/
theorem c1_counterexample :
    (executeOrder doubleThrowMgr 0 "a1" emptyOrder).outcome =
      some (.handlerFault "h1") := by
  rfl

/-- C1 amended: `emit` does not isolate handler invocations.  A handler
that raises aborts the handlers registered after it (the fold returns its
fault regardless of what follows), and a fault raised by an `orderStarted`
handler propagates to the caller of `execute_order` as the call's outcome. -/
theorem c1_handler_fault_propagation :
    (∀ (pre post : List Handler) (h : Handler) (p : EventPayload) (e : String),
      (∀ g ∈ pre, g p = none) → h p = some e →
      runHandlers (pre ++ h :: post) p = some e) ∧
    (∀ (m : AgentManager) (ck : Nat) (agentId : String) (ord : Order)
       (ag : Agent) (e : String),
      findAgent m agentId = some ag → ¬ ag.status = .busy →
      dispatch m.eventListeners "orderStarted"
        (.orderStarted
          { ag with currentOrder := some { ord with status := .in_progress }, status := .busy }
          { ord with status := .in_progress }) = some e →
      (executeOrder m ck agentId ord).outcome = some (.handlerFault e)) := by
  constructor
  · intro pre post h p e hpre hh
    induction pre with
    | nil => simp [runHandlers, hh]
    | cons g gs ih =>
      have hg : g p = none := hpre g (by simp)
      simp only [List.cons_append, runHandlers, hg]
      exact ih (fun x hx => hpre x (by simp [hx]))
  · intro m ck agentId ord ag e hf hnb hd
    rw [executeOrder_eq_run m ck agentId ord ag hf hnb]
    unfold executeOrderRun emitR
    dsimp only
    rw [hd]

/-- Witness for C1's amended theorem at concrete inputs. -/
theorem c1_handler_fault_propagation_witness :
    runHandlers
        [fun _ => none, fun _ => some "boom", fun _ => some "later"]
        (.agentCreated agentA) = some "boom" ∧
    (executeOrder doubleThrowMgr 0 "a1" emptyOrder).outcome =
      some (.handlerFault "h1") := by
  constructor
  · exact c1_handler_fault_propagation.1 [fun _ => none] [fun _ => some "later"]
      (fun _ => some "boom") (.agentCreated agentA) "boom"
      (by intro g hg; rw [List.mem_singleton] at hg; subst hg; rfl) rfl
  · exact c1_handler_fault_propagation.2 doubleThrowMgr 0 "a1" emptyOrder agentA
      "h1" rfl (by decide) rfl

/-- C3 counterexample: cleanup does NOT run on every exit path.  With an
`orderStarted` handler that throws, `executeOrder` raises, yet the agent
is left `busy` with its current-order reference still set and nothing
appended to its history — the `orderStarted` emission precedes the
`try`/`finally`, so its fault escapes without cleanup. -/
theorem c3_counterexample :
    (executeOrder throwingMgr 0 "a1" emptyOrder).outcome =
      some (.handlerFault "boom") ∧
    ((executeOrder throwingMgr 0 "a1" emptyOrder).mgr.agents.map
      (fun a => (a.status, a.currentOrder.isSome, a.orderHistory.length))) =
      [(.busy, true, 0)] := by
  constructor <;> rfl

/-- C3 amended: on every exit path past the precondition checks EXCEPT a
fault raised by an `orderStarted` handler (which escapes before the
`try`), the cleanup runs: the order is appended once to the agent's
history, the current-order reference is cleared, and the status is `idle`
unless it is `error`.  This holds for arbitrary task actions and
arbitrary faults from the other event handlers. -/
theorem c3_cleanup (m : AgentManager) (ck : Nat) (agentId : String)
    (ord : Order) (ag : Agent) (hf : findAgent m agentId = some ag)
    (hnb : ¬ ag.status = .busy)
    (hos : ∀ p, dispatch m.eventListeners "orderStarted" p = none) :
    ∃ aFin, findAgent (executeOrder m ck agentId ord).mgr agentId = some aFin ∧
      aFin.currentOrder = none ∧
      (∃ o', aFin.orderHistory = ag.orderHistory ++ [o']) ∧
      (aFin.status = .idle ∨ aFin.status = .error) := by
  rw [executeOrder_eq_run m ck agentId ord ag hf hnb]
  obtain ⟨aFin, hset, hid, hshape⟩ := executeOrderRun_shape m ck ag ord
  rcases hshape with ⟨_, _, _, e, hdis⟩ | ⟨hc, hh, hs⟩
  · rw [hos] at hdis
    exact absurd hdis (by simp)
  · refine ⟨aFin, ?_, hc, hh, hs⟩
    unfold findAgent
    rw [hset]
    exact find?_setAgent m.agents agentId ag aFin hf hid

/-- Witness for C3's amended theorem: a no-listener manager, an idle
agent, one failing task — the agent ends cleaned up. -/
theorem c3_cleanup_witness :
    ∃ aFin, findAgent (executeOrder
        { agents := [agentA], eventListeners := [] } 0 "a1"
        { id := "o1", name := "O", description := "",
          tasks := [{ id := "t1", name := "T1", description := "",
                      status := .pending, action := some "boom" }],
          createdAt := 0, status := .pending }).mgr "a1" = some aFin ∧
      aFin.currentOrder = none ∧
      (∃ o', aFin.orderHistory = agentA.orderHistory ++ [o']) ∧
      (aFin.status = .idle ∨ aFin.status = .error) :=
  c3_cleanup { agents := [agentA], eventListeners := [] } 0 "a1"
    { id := "o1", name := "O", description := "",
      tasks := [{ id := "t1", name := "T1", description := "",
                  status := .pending, action := some "boom" }],
      createdAt := 0, status := .pending }
    agentA rfl (by decide) (fun p => rfl)

theorem executeOrder_success_char (m : AgentManager) (ck : Nat)
    (agentId : String) (ord : Order) (ag : Agent)
    (hf : findAgent m agentId = some ag) (hnb : ¬ ag.status = .busy)
    (hb : benign m.eventListeners)
    (ha : ∀ t ∈ ord.tasks, t.action = none) :
    ∃ ts',
      (executeOrder m ck agentId ord).outcome = none ∧
      (executeOrder m ck agentId ord).order =
        { ord with tasks := ts', status := .completed } ∧
      ts'.length = ord.tasks.length ∧
      (∀ t' ∈ ts', t'.status = .completed) ∧
      (executeOrder m ck agentId ord).mgr.agents =
        setAgent m.agents
          (finallyStep
            { ag with currentOrder := some { ord with status := .in_progress }, status := .busy }
            { ord with tasks := ts', status := .completed }) ∧
      (executeOrder m ck agentId ord).trace.map eventTag =
        ("orderStarted", none) :: (ord.tasks.map taskTags).flatten ++ [("orderCompleted", none)] := by
  have hb' : ∀ event p, dispatch m.eventListeners event p = none := hb
  rw [executeOrder_eq_run m ck agentId ord ag hf hnb]
  unfold executeOrderRun emitR
  dsimp only
  rw [hb']
  dsimp only
  unfold executeOrderBody
  simp only [List.nil_append]
  obtain ⟨ts', c', heq, hlen, hall, htr⟩ :=
    runTasks_success m.eventListeners hb
      { ag with currentOrder := some { ord with status := .in_progress }, status := .busy }
      ord.tasks
      ⟨ck, [("orderStarted",
        .orderStarted
          { ag with currentOrder := some { ord with status := .in_progress }, status := .busy }
          { ord with status := .in_progress })]⟩
      ha
  rw [heq]
  dsimp only [emitR]
  rw [hb']
  refine ⟨ts', rfl, rfl, hlen, hall, rfl, ?_⟩
  simp only [List.map_append, htr]
  simp [eventTag]

/-- C6: for an order all of whose task actions succeed, executed on a
registered idle agent with non-throwing handlers: `executeOrder` returns
normally, the order ends `completed` with every task `completed`, the
agent ends `idle`, and the order is appended exactly once to the agent's
history. -/
theorem c6_success (m : AgentManager) (ck : Nat) (agentId : String)
    (ord : Order) (ag : Agent) (hf : findAgent m agentId = some ag)
    (hidle : ag.status = .idle) (hb : benign m.eventListeners)
    (ha : ∀ t ∈ ord.tasks, t.action = none) :
    (executeOrder m ck agentId ord).outcome = none ∧
    (executeOrder m ck agentId ord).order.status = .completed ∧
    (executeOrder m ck agentId ord).order.tasks.length = ord.tasks.length ∧
    (∀ t' ∈ (executeOrder m ck agentId ord).order.tasks, t'.status = .completed) ∧
    ∃ agF, findAgent (executeOrder m ck agentId ord).mgr agentId = some agF ∧
      agF.status = .idle ∧
      agF.orderHistory = ag.orderHistory ++ [(executeOrder m ck agentId ord).order] := by
  have hnb : ¬ ag.status = .busy := by simp [hidle]
  obtain ⟨ts', ho, hor, hlen, hall, hmgr, htr⟩ :=
    executeOrder_success_char m ck agentId ord ag hf hnb hb ha
  refine ⟨ho, by rw [hor], ?_, ?_, ?_⟩
  · rw [hor]
    exact hlen
  · rw [hor]
    exact hall
  · refine ⟨finallyStep
      { ag with currentOrder := some { ord with status := .in_progress }, status := .busy }
      { ord with tasks := ts', status := .completed }, ?_, ?_, ?_⟩
    · unfold findAgent
      rw [hmgr]
      exact find?_setAgent m.agents agentId ag _ hf (by rw [finallyStep_id])
    · rw [finallyStep_status]
      simp
    · rw [finallyStep_history, hor]

/-- Witness for C6 at concrete inputs (one successful task, no
listeners). -/
theorem c6_success_witness :
    (executeOrder { agents := [agentA], eventListeners := [] } 0 "a1"
      { id := "o1", name := "O", description := "",
        tasks := [{ id := "t1", name := "T1", description := "",
                    status := .pending, action := none }],
        createdAt := 0, status := .pending }).outcome = none ∧
    (executeOrder { agents := [agentA], eventListeners := [] } 0 "a1"
      { id := "o1", name := "O", description := "",
        tasks := [{ id := "t1", name := "T1", description := "",
                    status := .pending, action := none }],
        createdAt := 0, status := .pending }).order.status = .completed ∧
    (executeOrder { agents := [agentA], eventListeners := [] } 0 "a1"
      { id := "o1", name := "O", description := "",
        tasks := [{ id := "t1", name := "T1", description := "",
                    status := .pending, action := none }],
        createdAt := 0, status := .pending }).order.tasks.length = 1 ∧
    (∀ t' ∈ (executeOrder { agents := [agentA], eventListeners := [] } 0 "a1"
      { id := "o1", name := "O", description := "",
        tasks := [{ id := "t1", name := "T1", description := "",
                    status := .pending, action := none }],
        createdAt := 0, status := .pending }).order.tasks, t'.status = .completed) ∧
    ∃ agF, findAgent (executeOrder { agents := [agentA], eventListeners := [] } 0 "a1"
      { id := "o1", name := "O", description := "",
        tasks := [{ id := "t1", name := "T1", description := "",
                    status := .pending, action := none }],
        createdAt := 0, status := .pending }).mgr "a1" = some agF ∧
      agF.status = .idle ∧
      agF.orderHistory = agentA.orderHistory ++
        [(executeOrder { agents := [agentA], eventListeners := [] } 0 "a1"
          { id := "o1", name := "O", description := "",
            tasks := [{ id := "t1", name := "T1", description := "",
                        status := .pending, action := none }],
            createdAt := 0, status := .pending }).order] :=
  c6_success { agents := [agentA], eventListeners := [] } 0 "a1"
    { id := "o1", name := "O", description := "",
      tasks := [{ id := "t1", name := "T1", description := "",
                  status := .pending, action := none }],
      createdAt := 0, status := .pending }
    agentA rfl rfl (fun _ _ => rfl) (by decide)

/-- C7: for an order whose task actions all succeed, one `executeOrder`
call publishes exactly `orderStarted`, then for each task i in sequence
`taskStarted_i` immediately followed by `taskCompleted_i`, and finally
`orderCompleted` — no other events, in that interleaved order (handlers
assumed non-throwing, as required of them by the design). -/
theorem c7_event_sequence (m : AgentManager) (ck : Nat) (agentId : String)
    (ord : Order) (ag : Agent) (hf : findAgent m agentId = some ag)
    (hnb : ¬ ag.status = .busy) (hb : benign m.eventListeners)
    (ha : ∀ t ∈ ord.tasks, t.action = none) :
    (executeOrder m ck agentId ord).trace.map eventTag =
      ("orderStarted", none) ::
        (ord.tasks.map (fun t =>
          [("taskStarted", some t.id), ("taskCompleted", some t.id)])).flatten ++
        [("orderCompleted", none)] := by
  obtain ⟨ts', _, _, _, _, _, htr⟩ :=
    executeOrder_success_char m ck agentId ord ag hf hnb hb ha
  exact htr

/-- Witness for C7 at concrete inputs (two successful tasks, one benign
listener). -/
theorem c7_event_sequence_witness :
    (executeOrder
      { agents := [agentA], eventListeners := [("taskStarted", [fun _ => none])] }
      0 "a1"
      { id := "o1", name := "O", description := "",
        tasks := [{ id := "t1", name := "T1", description := "",
                    status := .pending, action := none },
                  { id := "t2", name := "T2", description := "",
                    status := .pending, action := none }],
        createdAt := 0, status := .pending }).trace.map eventTag =
      [("orderStarted", none), ("taskStarted", some "t1"), ("taskCompleted", some "t1"),
        ("taskStarted", some "t2"), ("taskCompleted", some "t2"), ("orderCompleted", none)] := by
  have h := c7_event_sequence
    { agents := [agentA], eventListeners := [("taskStarted", [fun _ => none])] }
    0 "a1"
    { id := "o1", name := "O", description := "",
      tasks := [{ id := "t1", name := "T1", description := "",
                  status := .pending, action := none },
                { id := "t2", name := "T2", description := "",
                  status := .pending, action := none }],
      createdAt := 0, status := .pending }
    agentA rfl (by decide)
    (by
      intro event p
      by_cases he : event = "taskStarted"
      · subst he
        rfl
      · simp only [dispatch, List.lookup]
        have hbe : (event == "taskStarted") = false := by simpa using he
        rw [hbe])
    (by intro t ht; fin_cases ht <;> rfl)
  rw [h]
  rfl

/-- C10 (implicit): `executeOrder` rejects only busy agents, so an agent
left in `error` status by a previous failed order is accepted for a new
order; if that order's tasks all succeed the agent's status is reset to
`idle` — a successful execution is itself the path out of the error
state. -/
theorem c10_error_recovery (m : AgentManager) (ck : Nat) (agentId : String)
    (ord : Order) (ag : Agent) (hf : findAgent m agentId = some ag)
    (herr : ag.status = .error) (hb : benign m.eventListeners)
    (ha : ∀ t ∈ ord.tasks, t.action = none) :
    (executeOrder m ck agentId ord).outcome = none ∧
    ∃ agF, findAgent (executeOrder m ck agentId ord).mgr agentId = some agF ∧
      agF.status = .idle := by
  have hnb : ¬ ag.status = .busy := by simp [herr]
  obtain ⟨ts', ho, hor, hlen, hall, hmgr, htr⟩ :=
    executeOrder_success_char m ck agentId ord ag hf hnb hb ha
  refine ⟨ho, finallyStep
      { ag with currentOrder := some { ord with status := .in_progress }, status := .busy }
      { ord with tasks := ts', status := .completed }, ?_, ?_⟩
  · unfold findAgent
    rw [hmgr]
    exact find?_setAgent m.agents agentId ag _ hf (by rw [finallyStep_id])
  · rw [finallyStep_status]
    simp

/-- Witness for C10: an error-status agent runs a one-task successful
order and ends idle. -/
theorem c10_error_recovery_witness :
    (executeOrder
      { agents := [{ id := "a1", name := "A", status := .error, orderHistory := [] }],
        eventListeners := [] } 0 "a1"
      { id := "o1", name := "O", description := "",
        tasks := [{ id := "t1", name := "T1", description := "",
                    status := .pending, action := none }],
        createdAt := 0, status := .pending }).outcome = none ∧
    ∃ agF, findAgent (executeOrder
      { agents := [{ id := "a1", name := "A", status := .error, orderHistory := [] }],
        eventListeners := [] } 0 "a1"
      { id := "o1", name := "O", description := "",
        tasks := [{ id := "t1", name := "T1", description := "",
                    status := .pending, action := none }],
        createdAt := 0, status := .pending }).mgr "a1" = some agF ∧
      agF.status = .idle :=
  c10_error_recovery
    { agents := [{ id := "a1", name := "A", status := .error, orderHistory := [] }],
      eventListeners := [] } 0 "a1"
    { id := "o1", name := "O", description := "",
      tasks := [{ id := "t1", name := "T1", description := "",
                  status := .pending, action := none }],
      createdAt := 0, status := .pending }
    { id := "a1", name := "A", status := .error, orderHistory := [] }
    rfl rfl (fun _ _ => rfl) (by decide)

/-- C2: for an order in which the tasks before `tF` all succeed and `tF`'s
action rejects with `msg`, executed on a registered non-busy agent with
non-throwing handlers: the tasks before `tF` end `completed`, `tF` ends
`failed` with its error recorded, the tasks after `tF` are returned
untouched (still `pending`, never started), the order ends `failed`, the
agent ends in `error` with the order appended once to its history, and
`executeOrder` raises a failure whose message contains `msg`. -/
theorem c2_fail_fast (m : AgentManager) (ck : Nat) (agentId : String)
    (ord : Order) (ag : Agent) (ts₁ : List Task) (tF : Task)
    (rest : List Task) (msg : String)
    (hf : findAgent m agentId = some ag) (hnb : ¬ ag.status = .busy)
    (hb : benign m.eventListeners) (hts : ord.tasks = ts₁ ++ tF :: rest)
    (h1 : ∀ t ∈ ts₁, t.action = none) (hF : tF.action = some msg)
    (hrest : ∀ t ∈ rest, t.status = .pending) :
    ∃ ts₁' tF',
      (executeOrder m ck agentId ord).order.tasks = ts₁' ++ tF' :: rest ∧
      ts₁'.length = ts₁.length ∧
      (∀ t' ∈ ts₁', t'.status = .completed) ∧
      tF'.status = .failed ∧ tF'.error = some msg ∧
      (∀ t ∈ rest, t.status = .pending) ∧
      (executeOrder m ck agentId ord).order.status = .failed ∧
      (∃ agF, findAgent (executeOrder m ck agentId ord).mgr agentId = some agF ∧
        agF.status = .error ∧
        agF.orderHistory = ag.orderHistory ++ [(executeOrder m ck agentId ord).order]) ∧
      ∃ e, (executeOrder m ck agentId ord).outcome = some e ∧
        ∃ pre suf, e.message = pre ++ msg ++ suf := by
  have hb' : ∀ event p, dispatch m.eventListeners event p = none := hb
  rw [executeOrder_eq_run m ck agentId ord ag hf hnb]
  unfold executeOrderRun emitR
  dsimp only
  rw [hb']
  dsimp only
  unfold executeOrderBody
  simp only [List.nil_append]
  obtain ⟨ts₁', c', heq, hlen, hall, htr⟩ :=
    runTasks_fail m.eventListeners hb
      { ag with currentOrder := some { ord with status := .in_progress }, status := .busy }
      ts₁
      ⟨ck, [("orderStarted",
        .orderStarted
          { ag with currentOrder := some { ord with status := .in_progress }, status := .busy }
          { ord with status := .in_progress })]⟩
      tF rest msg h1 hF
  rw [← hts] at heq
  rw [heq]
  dsimp only
  rw [catchAndFinally_def]
  dsimp only
  rw [hb']
  refine ⟨ts₁', taskFailedSt tF msg (c'.clock - 2), rfl, hlen, hall, ?_, ?_, hrest, rfl,
    ?_, ?_⟩
  · simp [taskFailedSt]
  · simp [taskFailedSt]
  · refine ⟨finallyStep
      { { ag with currentOrder := some { ord with status := .in_progress }, status := .busy }
        with status := .error }
      { { { ord with status := .in_progress }
          with tasks := ts₁' ++ taskFailedSt tF msg (c'.clock - 2) :: rest }
        with status := .failed }, ?_, ?_, ?_⟩
    · unfold findAgent
      exact find?_setAgent m.agents agentId ag _ hf (by rw [finallyStep_id])
    · rw [finallyStep_status]
      simp
    · rw [finallyStep_history]
  · exact ⟨.taskFailed ("Task " ++ tF.name ++ " failed: " ++ msg), rfl,
      "Task " ++ tF.name ++ " failed: ", "",
      by simp [Exc.message, String.append_assoc]⟩

/-- Task 1 of the concrete scenario: always succeeds. -/
def taskT1 : Task :=
  { id := "t1", name := "T1", description := "", status := .pending, action := none }

/-- Task 2 of the concrete scenario: always fails with "boom". -/
def taskBoom : Task :=
  { id := "t2", name := "T2", description := "", status := .pending, action := some "boom" }

/-- Task 3 of the concrete scenario: would succeed, must never run. -/
def taskT3 : Task :=
  { id := "t3", name := "T3", description := "", status := .pending, action := none }

/-- The three-task order of the spec's concrete scenario. -/
def orderBoom : Order :=
  { id := "o1", name := "O", description := "", tasks := [taskT1, taskBoom, taskT3],
    createdAt := 0, status := .pending }

/-- Witness for C2 at the spec's concrete scenario (task 2 fails with
"boom"). -/
theorem c2_fail_fast_witness :
    ∃ ts₁' tF',
      (executeOrder { agents := [agentA], eventListeners := [] } 0 "a1" orderBoom).order.tasks =
        ts₁' ++ tF' :: [taskT3] ∧
      ts₁'.length = [taskT1].length ∧
      (∀ t' ∈ ts₁', t'.status = .completed) ∧
      tF'.status = .failed ∧ tF'.error = some "boom" ∧
      (∀ t ∈ [taskT3], t.status = .pending) ∧
      (executeOrder { agents := [agentA], eventListeners := [] } 0 "a1" orderBoom).order.status = .failed ∧
      (∃ agF, findAgent (executeOrder { agents := [agentA], eventListeners := [] } 0 "a1" orderBoom).mgr "a1" = some agF ∧
        agF.status = .error ∧
        agF.orderHistory = agentA.orderHistory ++
          [(executeOrder { agents := [agentA], eventListeners := [] } 0 "a1" orderBoom).order]) ∧
      ∃ e, (executeOrder { agents := [agentA], eventListeners := [] } 0 "a1" orderBoom).outcome = some e ∧
        ∃ pre suf, e.message = pre ++ "boom" ++ suf :=
  c2_fail_fast { agents := [agentA], eventListeners := [] } 0 "a1" orderBoom agentA
    [taskT1] taskBoom [taskT3] "boom" rfl (by decide) (fun _ _ => rfl) rfl
    (by decide) rfl (by decide)

/-- C8: for a task processed by the engine in a single execution (fresh
fields, as `createOrder` builds them), on every exit of `executeTask`
(normal return or a handler fault): the start timestamp is set and the
status has left `pending`, the end timestamp is set exactly when the
status has left `running`, `result` is set iff the task `completed`,
`error` is set iff it `failed`, and never both.  Holds for arbitrary
handlers and an arbitrary action outcome. -/
theorem c8_task_fields (ls : Listeners) (c : Ctx) (ag : Agent) (t : Task)
    (hr : t.result = none) (he : t.error = none) (hend : t.endTime = none) :
    (executeTask ls c ag t).1.startTime.isSome = true ∧
    (executeTask ls c ag t).1.status ≠ .pending ∧
    ((executeTask ls c ag t).1.endTime.isSome = true ↔
      ((executeTask ls c ag t).1.status = .completed ∨
       (executeTask ls c ag t).1.status = .failed)) ∧
    ((executeTask ls c ag t).1.result.isSome = true ↔
      (executeTask ls c ag t).1.status = .completed) ∧
    ((executeTask ls c ag t).1.error.isSome = true ↔
      (executeTask ls c ag t).1.status = .failed) ∧
    ¬((executeTask ls c ag t).1.result.isSome = true ∧
      (executeTask ls c ag t).1.error.isSome = true) := by
  unfold executeTask emitR
  dsimp only
  split
  next msg heq => simp [hr, he, hend]
  next heq =>
    rcases hA : t.action with _ | amsg
    · simp [hr, he, hend]
    · simp [hr, he, hend]

/-- Witness for C8 at a concrete fresh task with a failing action and no
listeners. -/
theorem c8_task_fields_witness :
    (executeTask [] ⟨0, []⟩ agentA taskBoom).1.startTime.isSome = true ∧
    (executeTask [] ⟨0, []⟩ agentA taskBoom).1.status ≠ .pending ∧
    ((executeTask [] ⟨0, []⟩ agentA taskBoom).1.endTime.isSome = true ↔
      ((executeTask [] ⟨0, []⟩ agentA taskBoom).1.status = .completed ∨
       (executeTask [] ⟨0, []⟩ agentA taskBoom).1.status = .failed)) ∧
    ((executeTask [] ⟨0, []⟩ agentA taskBoom).1.result.isSome = true ↔
      (executeTask [] ⟨0, []⟩ agentA taskBoom).1.status = .completed) ∧
    ((executeTask [] ⟨0, []⟩ agentA taskBoom).1.error.isSome = true ↔
      (executeTask [] ⟨0, []⟩ agentA taskBoom).1.status = .failed) ∧
    ¬((executeTask [] ⟨0, []⟩ agentA taskBoom).1.result.isSome = true ∧
      (executeTask [] ⟨0, []⟩ agentA taskBoom).1.error.isSome = true) :=
  c8_task_fields [] ⟨0, []⟩ agentA taskBoom rfl rfl rfl

theorem length_eq_filter_completed_add_failed (h : List Order)
    (hterm : ∀ o ∈ h, o.status = .completed ∨ o.status = .failed) :
    h.length = (h.filter (fun o => o.status == .completed)).length +
      (h.filter (fun o => o.status == .failed)).length := by
  induction h with
  | nil => simp
  | cons o t ih =>
    have ho := hterm o (by simp)
    have ht : ∀ x ∈ t, x.status = .completed ∨ x.status = .failed :=
      fun x hx => hterm x (by simp [hx])
    have h1 : (OrderStatus.completed == OrderStatus.failed) = false := by decide
    have h2 : (OrderStatus.failed == OrderStatus.completed) = false := by decide
    have h3 : (OrderStatus.completed == OrderStatus.completed) = true := by decide
    have h4 : (OrderStatus.failed == OrderStatus.failed) = true := by decide
    rcases ho with ho | ho <;> simp [List.filter, ho, ih ht, h1, h2, h3, h4] <;> omega

theorem foldl_tasks_length (h : List Order) (n : Nat) :
    h.foldl (fun sum o => sum + o.tasks.length) n =
      n + (h.map (fun o => o.tasks.length)).sum := by
  induction h generalizing n with
  | nil => simp
  | cons o t ih => simp [List.foldl, ih, Nat.add_assoc]

/-- C9: `getStats` fails with `AgentNotFound` for an unknown id and, for a
registered agent whose history holds only terminal orders (as every order
pushed by `executeOrder` is), reports `total_orders` = completed + failed,
the completed and failed counts, and the summed task count over the whole
history.  The embedded `getStats` is a pure function of the manager,
mirroring the mutation-free source method. -/
theorem c9_stats (m : AgentManager) (agentId : String) :
    (findAgent m agentId = none →
      getStats m agentId = .error (.agentNotFound agentId)) ∧
    (∀ ag, findAgent m agentId = some ag →
      (∀ o ∈ ag.orderHistory, o.status = .completed ∨ o.status = .failed) →
      getStats m agentId = .ok
        { totalOrders := (ag.orderHistory.filter (fun o => o.status == .completed)).length +
            (ag.orderHistory.filter (fun o => o.status == .failed)).length,
          completedOrders := (ag.orderHistory.filter (fun o => o.status == .completed)).length,
          failedOrders := (ag.orderHistory.filter (fun o => o.status == .failed)).length,
          totalTasks := (ag.orderHistory.map (fun o => o.tasks.length)).sum }) := by
  constructor
  · intro h
    unfold getStats
    rw [h]
  · intro ag hf hterm
    unfold getStats
    rw [hf]
    dsimp only
    rw [length_eq_filter_completed_add_failed ag.orderHistory hterm,
      foldl_tasks_length ag.orderHistory 0]
    simp

/-- A completed two-task order for the stats fixture. -/
def ordDoneC : Order :=
  { id := "oc", name := "OC", description := "",
    tasks := [{ id := "t1", name := "T1", description := "", status := .completed, action := none },
              { id := "t2", name := "T2", description := "", status := .completed, action := none }],
    createdAt := 0, status := .completed }

/-- A failed one-task order for the stats fixture. -/
def ordDoneF : Order :=
  { id := "of", name := "OF", description := "",
    tasks := [{ id := "t3", name := "T3", description := "", status := .failed, action := some "x" }],
    createdAt := 0, status := .failed }

/-- An agent with one completed and one failed order in its history. -/
def statsAgent : Agent :=
  { id := "a1", name := "A", status := .idle, orderHistory := [ordDoneC, ordDoneF] }

/-- Witness for C9: M = 1 completed, F = 1 failed, 3 tasks in total; an
unknown id yields `AgentNotFound`. -/
theorem c9_stats_witness :
    getStats { agents := [statsAgent], eventListeners := [] } "a1" =
      .ok { totalOrders := 2, completedOrders := 1, failedOrders := 1, totalTasks := 3 } ∧
    getStats { agents := [statsAgent], eventListeners := [] } "zz" =
      .error (.agentNotFound "zz") := by
  constructor
  · have h := (c9_stats { agents := [statsAgent], eventListeners := [] } "a1").2
      statsAgent rfl (by decide)
    rw [h]
    rfl
  · exact (c9_stats { agents := [statsAgent], eventListeners := [] } "zz").1 rfl

/-- A busy agent holding the empty order, for the C4 witness. -/
def busyAgent : Agent :=
  { id := "a1", name := "A", status := .busy, currentOrder := some emptyOrder, orderHistory := [] }

/-- Witness for C4: an unknown id yields `AgentNotFound`; a busy agent is
rejected with `AgentBusy` and nothing is touched. -/
theorem c4_preconditions_witness :
    (∃ s, (executeOrder { agents := [agentA], eventListeners := [] } 0 "zz" emptyOrder).outcome =
      some (.agentNotFound s)) ∧
    executeOrder { agents := [busyAgent], eventListeners := [] } 0 "a1" emptyOrder =
      ⟨{ agents := [busyAgent], eventListeners := [] }, emptyOrder, [], 0,
        some (.agentBusy busyAgent.name)⟩ := by
  constructor
  · exact (c4_preconditions { agents := [agentA], eventListeners := [] } 0 "zz" emptyOrder).1.mpr rfl
  · exact (c4_preconditions { agents := [busyAgent], eventListeners := [] } 0 "a1" emptyOrder).2.2
      busyAgent rfl rfl

/-- Witness for C5: the busy-iff-order invariant after a concrete
successful execution. -/
theorem c5_busy_invariant_witness :
    agentInv
      { id := "a1", name := "A", status := .idle, currentOrder := none,
        orderHistory := [{ id := "o1", name := "O", description := "", tasks := [], createdAt := 0, status := .completed }] } := by
  have h := c5_busy_invariant { agents := [agentA], eventListeners := [] } 0 "a1" emptyOrder
    (by decide)
  exact h _ (by decide)

end ObsControl
